import Mathlib

/-!
Shallow embedding of the gowebcrawler crawl orchestration engine
(`crawler.go`, package `gowebcrawler`) and proofs about its
specification.

Modelling conventions:

* Go strings are Lean `String`; `strings.HasPrefix` is `goStartsWith`
  (structural comparison of the underlying character lists) and
  `fmt.Sprint(a, b)` on two strings is `a ++ b`.
* A Go `Parser` (the external Page Fetcher collaborator, interface
  method `Parse(url) (links, assets, err)`) is a pure function
  `String → Except String (List String × List String)`; `Except.error`
  is a non-nil `err`, `Except.ok (links, assets)` a nil `err`.
  `fetchPage` in the source never returns both a nil page and a nil
  error, so `Except` is a faithful rendering of its
  `(*Page, error)` result.
* The Go heap of `*Page` pointers is an explicit store
  `PageStore := String → Option Page`. Each fetched URL yields at most
  one `Page` object, so a page's `Url` is a valid identity and the
  Go pointer graph (`parent` pointers, `Children` maps) is rendered by
  URL indirection: `Page.parent` holds the parent's URL, a `Children`
  map is the list `ChildKeys` of its keys, with the mapped value being
  the store's entry at that key.
* The unordered result channel plus `waiting` counter of `Crawl` is a
  FIFO queue of `Msg`: dispatching a goroutine computes its `fetchPage`
  result immediately and enqueues the result message. This fixes one
  interleaving of the concurrent execution; the reducer loop is the
  sole owner of all session state in the source, so each interleaving
  is a permutation of message processing order and the FIFO schedule is
  a faithful representative.
* The loop `for waiting := 1; waiting > 0; waiting--` is `crawlLoop`,
  structurally recursive on a fuel argument; `none` models
  non-termination (or an impossible blocked receive).
* `json.MarshalIndent` (external stdlib collaborator, out of the
  specified core) is an abstract parameter `marshal` of `Crawl`; its
  `error` result is a failing serialization.
* Instrumentation: `LoopState.fetched` records, in call order, every
  URL passed to `fetchPage`, and `LoopState.parseCalls` every URL for
  which `fetchPage` actually invoked `Parser.Parse` (the Boolean
  second component of `fetchPageI` reports exactly that).
-/

/-- Structural list version of Go `strings.HasPrefix`: is the first list
a prefix of the second. -/
def isPre : List Char → List Char → Bool
  | [], _ => true
  | _ :: _, [] => false
  | a :: as, b :: bs => a == b && isPre as bs

/-- Model of Go `strings.HasPrefix s pre`: does `s` start with `pre`. -/
def goStartsWith (s pre : String) : Bool :=
  isPre pre.data s.data

/-- Model of `getAbsoluteUrl` (crawler.go lines 115-120): a candidate
beginning with a single `/` (not `//`) is concatenated onto the root
URL, anything else is returned unchanged. -/
def getAbsoluteUrl (rootUrl url : String) : String :=
  if goStartsWith url "/" && !goStartsWith url "//" then rootUrl ++ url
  else url

/-- Model of the `Page` struct (crawler.go lines 14-20). `ChildKeys`
lists the keys of the Go `Children` map (the mapped value for key `k`
is the page store's entry at `k`); `parent` holds the parent page's
URL, rendering the Go parent pointer. -/
structure Page where
  Url : String
  Assets : List String
  Links : List String
  ChildKeys : List String
  parent : Option String
deriving DecidableEq

/-- The heap of `Page` objects, indexed by a page's URL. -/
def PageStore : Type := String → Option Page

/-- The empty heap. -/
def PageStore.empty : PageStore := fun _ => none

/-- Heap update: (re)bind one URL to a page. -/
def PageStore.set (st : PageStore) (k : String) (p : Page) : PageStore :=
  fun x => if x = k then some p else st x

/-- Model of the `WebCrawler` struct (crawler.go lines 37-41). The
`Parser` field is the external Page Fetcher collaborator as a pure
function. `FetchLimit` is a non-negative count, `0` meaning
unlimited. -/
structure WebCrawler where
  Parser : String → Except String (List String × List String)
  RootUrl : String
  FetchLimit : Nat

/-- Model of `fetchPage` (crawler.go lines 123-142) instrumented with a
Boolean that is `true` exactly when `Parser.Parse` was invoked: a URL
without the root-URL prefix is rejected before the parser is consulted;
otherwise a parser error is passed through, and on success a fresh
`Page` is built with an empty `Children` map and the given parent. -/
def fetchPageI (w : WebCrawler) (parent : Option String) (url : String) :
    Except String Page × Bool :=
  if !goStartsWith url w.RootUrl then
    (Except.error "Url invalid or outside of allowed domain", false)
  else
    match w.Parser url with
    | Except.error e => (Except.error e, true)
    | Except.ok (links, assets) =>
        (Except.ok { Url := url, Assets := assets, Links := links,
                     ChildKeys := [], parent := parent }, true)

/-- Model of `fetchPage` proper: the result component of `fetchPageI`. -/
def fetchPage (w : WebCrawler) (parent : Option String) (url : String) :
    Except String Page :=
  (fetchPageI w parent url).1

/-- Model of the `PageMessage` struct (crawler.go lines 43-47): a fetch
result sent on the channel, `res` combining the Go `Page`/`Error` pair
and `url` the fetched URL. -/
structure Msg where
  res : Except String Page
  url : String

/-- Result of dispatching the links of one processed page: the messages
the spawned fetch goroutines will deliver (in dispatch order), the
updated `requested` set, and the newly fetched / newly parsed URLs
(instrumentation). -/
structure Dispatch where
  msgs : List Msg
  requested : List String
  newFetched : List String
  newParseCalls : List String

/-- Model of the dispatch loop (crawler.go lines 92-104): each raw link
is resolved with `getAbsoluteUrl`; a link whose absolute form is already
in `requested` is skipped, otherwise it is marked requested and a fetch
for it is dispatched with the processed page as parent. -/
def dispatchLinks (w : WebCrawler) (parentUrl : String) :
    List String → List String → Dispatch
  | [], req => { msgs := [], requested := req, newFetched := [],
                 newParseCalls := [] }
  | l :: ls, req =>
    let abs := getAbsoluteUrl w.RootUrl l
    if abs ∈ req then dispatchLinks w parentUrl ls req
    else
      let fr := fetchPageI w (some parentUrl) abs
      let d := dispatchLinks w parentUrl ls (req ++ [abs])
      { msgs := { res := fr.1, url := abs } :: d.msgs,
        requested := d.requested,
        newFetched := abs :: d.newFetched,
        newParseCalls := (if fr.2 then [abs] else []) ++ d.newParseCalls }

/-- The crawl session state owned by the reducer loop: the `requested`
dedup ledger, the page heap, the accumulated (never surfaced) errors,
and the two instrumentation traces. -/
structure LoopState where
  requested : List String
  store : PageStore
  errors : List String
  fetched : List String
  parseCalls : List String

/-- Model of `page.parent.Children[page.Url] = page` (crawler.go lines
83-85): insert the page into the heap and record its URL as a key of
its parent's `Children` map; a page with no parent (the root) is not
attached anywhere. -/
def attachToParent (st : PageStore) (page : Page) : PageStore :=
  match page.parent with
  | none => st
  | some pu =>
    let st1 :=
      match st pu with
      | some pp =>
          st.set pu { pp with ChildKeys := pp.ChildKeys ++ [page.Url] }
      | none => st
    st1.set page.Url page

/-- Model of one iteration of the reducer loop body (crawler.go lines
74-104): an error message only appends `"err: url"` to `errors`; a
success message attaches the page to its parent, then either skips
dispatch when a positive fetch limit is reached by `requested`, or
dispatches fetches for all not-yet-requested absolute links. Returns
the messages to enqueue and the updated state. -/
def crawlStep (w : WebCrawler) (msg : Msg) (s : LoopState) :
    List Msg × LoopState :=
  match msg.res with
  | Except.error e =>
      ([], { s with errors := s.errors ++ [e ++ ": " ++ msg.url] })
  | Except.ok page =>
    let st1 := attachToParent s.store page
    if w.FetchLimit ≠ 0 ∧ s.requested.length ≥ w.FetchLimit then
      ([], { s with store := st1 })
    else
      let d := dispatchLinks w page.Url page.Links s.requested
      (d.msgs,
       { s with store := st1, requested := d.requested,
                fetched := s.fetched ++ d.newFetched,
                parseCalls := s.parseCalls ++ d.newParseCalls })

/-- Model of the reducer loop `for waiting := 1; waiting > 0; waiting--`
(crawler.go lines 73-105): while `waiting` is positive, receive the
next message, process it with `crawlStep`, add the number of newly
dispatched fetches to `waiting` and decrement it once for the processed
message. `none` means the fuel ran out (non-termination) or a blocked
receive on an empty channel. -/
def crawlLoop (w : WebCrawler) :
    Nat → Nat → List Msg → LoopState → Option LoopState
  | _, 0, _, s => some s
  | 0, _ + 1, _, _ => none
  | fuel + 1, wt + 1, queue, s =>
    match queue with
    | [] => none
    | msg :: rest =>
      let r := crawlStep w msg s
      crawlLoop w fuel (wt + r.1.length) (rest ++ r.1) r.2

/-- The data available when `Crawl` reaches its serialization step: the
root URL, the finished page heap (the tree), the accumulated errors and
the instrumentation traces. -/
structure CrawlResult where
  rootUrl : String
  store : PageStore
  errors : List String
  requested : List String
  fetched : List String
  parseCalls : List String

/-- Model of `Crawl` (crawler.go lines 50-106) up to, but not
including, serialization: resolve the start URL, fetch it synchronously
(failure short-circuits with `"err: url"`), mark it requested, enqueue
the synthetic root message and run the reducer loop. The outer `Option`
is fuel exhaustion of the loop. -/
def CrawlCore (w : WebCrawler) (fuel : Nat) (url0 : String) :
    Option (Except String CrawlResult) :=
  let url := getAbsoluteUrl w.RootUrl url0
  match fetchPage w none url with
  | Except.error e => some (Except.error (e ++ ": " ++ url))
  | Except.ok page =>
    let s0 : LoopState :=
      { requested := [url],
        store := PageStore.empty.set url page,
        errors := [],
        fetched := [url],
        parseCalls := if (fetchPageI w none url).2 then [url] else [] }
    match crawlLoop w fuel 1 [{ res := Except.ok page, url := url }] s0 with
    | none => none
    | some s =>
        some (Except.ok
          { rootUrl := url, store := s.store, errors := s.errors,
            requested := s.requested, fetched := s.fetched,
            parseCalls := s.parseCalls })

/-- Model of the serialization step of `Crawl` (crawler.go lines
107-112): `marshal` abstracts `json.MarshalIndent` applied to the root
page of the finished heap; a failing serialization is wrapped into
`"Error generating JSON Site Map: ..."`. Only the root URL and the heap
are passed to the serializer. -/
def serializeStep (marshal : String → PageStore → Except String String)
    (r : CrawlResult) : Except String String :=
  match marshal r.rootUrl r.store with
  | Except.error jErr =>
      Except.error ("Error generating JSON Site Map: " ++ jErr)
  | Except.ok b => Except.ok b

/-- Model of the full `Crawl` (crawler.go lines 50-113), parametric in
the serializer. -/
def Crawl (w : WebCrawler)
    (marshal : String → PageStore → Except String String)
    (fuel : Nat) (url0 : String) : Option (Except String String) :=
  (CrawlCore w fuel url0).map fun x =>
    match x with
    | Except.error e => Except.error e
    | Except.ok r => serializeStep marshal r
/-- Go map access `p.Children[k]` on the rendered tree: the child page
is present exactly when `k` is a key of the map, and the mapped value
is the heap's entry at `k`. -/
def childPage (st : PageStore) (p : Page) (k : String) : Option Page :=
  if k ∈ p.ChildKeys then st k else none

/-- Does a crawl outcome hold a finished tree (no fatal error, enough
fuel). -/
def isOkResult (o : Option (Except String CrawlResult)) : Bool :=
  match o with
  | some (Except.ok _) => true
  | _ => false

/-- The accumulated errors of a successful crawl outcome. -/
def errorsOf (o : Option (Except String CrawlResult)) : Option (List String) :=
  match o with
  | some (Except.ok r) => some r.errors
  | _ => none

/-- The `fetchPage`-call trace of a successful crawl outcome. -/
def fetchedOf (o : Option (Except String CrawlResult)) : Option (List String) :=
  match o with
  | some (Except.ok r) => some r.fetched
  | _ => none

/-- The `Parser.Parse`-call trace of a successful crawl outcome. -/
def parseCallsOf (o : Option (Except String CrawlResult)) :
    Option (List String) :=
  match o with
  | some (Except.ok r) => some r.parseCalls
  | _ => none

/-- The `Children` keys of the root page of a successful crawl
outcome. -/
def rootChildKeys (o : Option (Except String CrawlResult)) :
    Option (List String) :=
  match o with
  | some (Except.ok r) => (r.store r.rootUrl).map Page.ChildKeys
  | _ => none

/-- Chain fixture, after the `three/1.html` test fixture of the
repository: page 1 links to page 2, page 2 to page 3, page 3 carries
the single asset `theend.jpg`; every other path is a 404. -/
def chainParser : String → Except String (List String × List String) :=
  fun u =>
    if u = "http://h/1.html" then Except.ok (["/2.html"], [])
    else if u = "http://h/2.html" then Except.ok (["/3.html"], [])
    else if u = "http://h/3.html" then Except.ok ([], ["theend.jpg"])
    else Except.error "Not Found"

/-- Crawler over the chain fixture, no fetch limit. -/
def chainCrawler : WebCrawler :=
  { Parser := chainParser, RootUrl := "http://h", FetchLimit := 0 }

/-- Assets of the page reached as `root.Children[2.html].Children[3.html]`
in the chain fixture crawl. -/
def chainAssets : Option (List String) :=
  match CrawlCore chainCrawler 10 "/1.html" with
  | some (Except.ok r) =>
    match r.store r.rootUrl with
    | some rootp =>
      match childPage r.store rootp "http://h/2.html" with
      | some pb => (childPage r.store pb "http://h/3.html").map Page.Assets
      | none => none
    | none => none
  | _ => none

/-- Fixture with one fetchable and one broken link on the root page. -/
def mixedParser : String → Except String (List String × List String) :=
  fun u =>
    if u = "http://h/r.html" then Except.ok (["/good.html", "/bad.html"], [])
    else if u = "http://h/good.html" then Except.ok ([], [])
    else Except.error "Not Found"

/-- Crawler over the mixed fixture, no fetch limit. -/
def mixedCrawler : WebCrawler :=
  { Parser := mixedParser, RootUrl := "http://h", FetchLimit := 0 }

/-- Fixture whose root page carries a single out-of-domain link. -/
def externalParser : String → Except String (List String × List String) :=
  fun u =>
    if u = "http://h/a.html" then Except.ok (["http://evil.com/x"], [])
    else Except.error "Not Found"

/-- Crawler over the out-of-domain-link fixture. -/
def externalCrawler : WebCrawler :=
  { Parser := externalParser, RootUrl := "http://h", FetchLimit := 0 }

/-- Crawler for exercising a single reducer step at its fetch limit. -/
def stepCrawler : WebCrawler :=
  { Parser := fun _ => Except.error "Not Found", RootUrl := "http://h",
    FetchLimit := 1 }

/-- A concrete already-fetched page for single-step runs. -/
def stepPage : Page :=
  { Url := "http://h/p", Assets := [], Links := ["/q"], ChildKeys := [],
    parent := none }

/-- The result message carrying `stepPage`. -/
def stepMsg : Msg := { res := Except.ok stepPage, url := "http://h/p" }

/-- A session state in which the fetch limit of `stepCrawler` is already
reached. -/
def stepState : LoopState :=
  { requested := ["http://h/p"], store := PageStore.empty, errors := [],
    fetched := ["http://h/p"], parseCalls := ["http://h/p"] }

/-- The empty session state, for single-step runs. -/
def emptyState : LoopState :=
  { requested := [], store := PageStore.empty, errors := [], fetched := [],
    parseCalls := [] }

/-- The crawl result of the chain fixture (with a harmless default for
the cases that do not occur), so that closed statements can name it. -/
def chainResult : CrawlResult :=
  match CrawlCore chainCrawler 10 "/1.html" with
  | some (Except.ok r) => r
  | _ => { rootUrl := "", store := PageStore.empty, errors := [],
           requested := [], fetched := [], parseCalls := [] }

/-- A concrete parent page for single-attach runs. -/
def parentFix : Page :=
  { Url := "http://h/a", Assets := [], Links := [], ChildKeys := [],
    parent := none }

/-- A concrete child page of `parentFix`. -/
def childFix : Page :=
  { Url := "http://h/b", Assets := [], Links := [], ChildKeys := [],
    parent := some "http://h/a" }

/-- A heap holding just `parentFix`. -/
def storeFix : PageStore := PageStore.empty.set "http://h/a" parentFix

/-- Well-formedness of the page heap: every entry is keyed by its own
URL, every key is in-domain, every `Children` key maps to a stored page
whose `Url` is that key and whose parent is the enclosing page, the
root page is stored with no parent, and the root URL is never a
`Children` key. -/
structure StoreWF (w : WebCrawler) (ru : String) (st : PageStore) : Prop where
  url_eq : ∀ k p, st k = some p → p.Url = k
  key_dom : ∀ k p, st k = some p → goStartsWith k w.RootUrl = true
  child_ok : ∀ k p, st k = some p → ∀ c ∈ p.ChildKeys,
    ∃ q, st c = some q ∧ q.Url = c ∧ q.parent = some k
  root_some : (st ru).isSome
  root_parent : ∀ p, st ru = some p → p.parent = none
  root_not_child : ∀ k p, st k = some p → ru ∉ p.ChildKeys

/-- Well-formedness of one in-flight result message: its URL has been
requested, and a successful payload is a page freshly created by
`fetchPage` for that URL — in-domain, parser-derived links and assets,
empty `Children`, and either the root (no parent) or a page with a
stored parent and a URL not yet in the heap. -/
def MsgWF (w : WebCrawler) (ru : String) (st : PageStore)
    (req : List String) (m : Msg) : Prop :=
  m.url ∈ req ∧
  ∀ p, m.res = Except.ok p →
    p.Url = m.url ∧ p.ChildKeys = [] ∧
    goStartsWith m.url w.RootUrl = true ∧
    w.Parser m.url = Except.ok (p.Links, p.Assets) ∧
    ((p.parent = none ∧ m.url = ru) ∨
     (∃ pu, p.parent = some pu ∧ (st pu).isSome ∧ st m.url = none))

/-- The reducer-loop invariant: the outstanding counter equals the
queue length, the dedup ledger is duplicate-free and equals the
`fetchPage`-call trace, the parse trace is its in-domain filter, all
queued messages are well formed with pairwise distinct URLs, every
stored page was requested, and the heap is well formed. -/
structure LoopInv (w : WebCrawler) (ru : String) (wt : Nat) (queue : List Msg)
    (s : LoopState) : Prop where
  qlen : queue.length = wt
  req_nodup : s.requested.Nodup
  fetched_eq : s.fetched = s.requested
  parse_eq : s.parseCalls =
    s.requested.filter (fun u => goStartsWith u w.RootUrl)
  msgs_wf : ∀ m ∈ queue, MsgWF w ru s.store s.requested m
  q_nodup : (queue.map Msg.url).Nodup
  dom_req : ∀ k, (s.store k).isSome → k ∈ s.requested
  store_wf : StoreWF w ru s.store

/-- Equality on fetch results is decidable (for concrete test runs). -/
instance exceptDecEq {α β : Type} [DecidableEq α] [DecidableEq β] :
    DecidableEq (Except α β) := fun a b =>
  match a, b with
  | Except.error x, Except.error y =>
    if h : x = y then Decidable.isTrue (by rw [h])
    else Decidable.isFalse (by simp [h])
  | Except.ok x, Except.ok y =>
    if h : x = y then Decidable.isTrue (by rw [h])
    else Decidable.isFalse (by simp [h])
  | Except.error _, Except.ok _ => Decidable.isFalse (by simp)
  | Except.ok _, Except.error _ => Decidable.isFalse (by simp)

theorem slash_data : "/".data = ['/'] := rfl

theorem slash2_data : "//".data = ['/', '/'] := rfl

/-- Characterization of `goStartsWith s "/"`: true exactly when the
first character of `s` is `/`. -/
theorem goStartsWith_slash (s : String) :
    goStartsWith s "/" = true ↔ ∃ cs, s.data = '/' :: cs := by
  unfold goStartsWith
  rw [slash_data]
  cases hs : s.data with
  | nil => simp [isPre]
  | cons c cs =>
    simp only [isPre, Bool.and_eq_true, beq_iff_eq, List.cons.injEq]
    constructor
    · rintro ⟨rfl, -⟩; exact ⟨cs, rfl, rfl⟩
    · rintro ⟨cs2, rfl, rfl⟩; exact ⟨rfl, trivial⟩

/-- Characterization of `goStartsWith s "//"`. -/
theorem goStartsWith_slash2 (s : String) :
    goStartsWith s "//" = true ↔ ∃ cs, s.data = '/' :: '/' :: cs := by
  unfold goStartsWith
  rw [slash2_data]
  cases hs : s.data with
  | nil => simp [isPre]
  | cons c cs =>
    cases cs with
    | nil =>
      simp only [isPre, Bool.and_eq_true, beq_iff_eq, List.cons.injEq]
      simp
    | cons c' cs' =>
      simp only [isPre, Bool.and_eq_true, beq_iff_eq, List.cons.injEq]
      constructor
      · rintro ⟨rfl, rfl, -⟩; exact ⟨cs', rfl, rfl, rfl⟩
      · rintro ⟨ds, rfl, rfl, rfl⟩; exact ⟨rfl, rfl, trivial⟩
/-- C7: the URL normalizer returns the concatenation of root and
candidate when the candidate begins with a single `/` (not `//`), and
returns the candidate unchanged in every other case (empty, starting
with a character other than `/`, or starting with `//`); in particular
root `http://host` with link `/a.html` yields `http://host/a.html`. -/
theorem getAbsoluteUrl_spec (r s : String) :
    (∀ cs, s.data = '/' :: cs → (∀ ds, cs ≠ '/' :: ds) →
      getAbsoluteUrl r s = r ++ s) ∧
    (s.data = [] → getAbsoluteUrl r s = s) ∧
    (∀ c cs, s.data = c :: cs → c ≠ '/' → getAbsoluteUrl r s = s) ∧
    (∀ ds, s.data = '/' :: '/' :: ds → getAbsoluteUrl r s = s) ∧
    getAbsoluteUrl "http://host" "/a.html" = "http://host/a.html" := by
  refine ⟨?_, ?_, ?_, ?_, by decide⟩
  · intro cs hcs hne
    have h1 : goStartsWith s "/" = true := (goStartsWith_slash s).2 ⟨cs, hcs⟩
    have h2 : goStartsWith s "//" = false := by
      cases h : goStartsWith s "//" with
      | false => rfl
      | true =>
        obtain ⟨ds, hds⟩ := (goStartsWith_slash2 s).1 h
        rw [hcs] at hds
        exact absurd (List.cons.inj hds).2 (hne ds)
    simp [getAbsoluteUrl, h1, h2]
  · intro hnil
    have h1 : goStartsWith s "/" = false := by
      cases h : goStartsWith s "/" with
      | false => rfl
      | true =>
        obtain ⟨cs, hcs⟩ := (goStartsWith_slash s).1 h
        rw [hnil] at hcs
        exact absurd hcs (List.noConfusion)
    simp [getAbsoluteUrl, h1]
  · intro c cs hcs hc
    have h1 : goStartsWith s "/" = false := by
      cases h : goStartsWith s "/" with
      | false => rfl
      | true =>
        obtain ⟨cs', hcs'⟩ := (goStartsWith_slash s).1 h
        rw [hcs] at hcs'
        exact absurd (List.cons.inj hcs').1 hc
    simp [getAbsoluteUrl, h1]
  · intro ds hds
    have h2 : goStartsWith s "//" = true :=
      (goStartsWith_slash2 s).2 ⟨ds, hds⟩
    simp [getAbsoluteUrl, h2]

/-- Witness for C7 at root `http://host`, candidate `/a.html`. -/
theorem getAbsoluteUrl_spec_w :
    getAbsoluteUrl "http://host" "/a.html" = "http://host" ++ "/a.html" :=
  (getAbsoluteUrl_spec "http://host" "/a.html").1 "a.html".data (by decide)
    (fun ds h => by simp at h)

/-- The instrumentation flag of `fetchPageI` is true exactly when the
URL has the root-URL prefix, i.e. exactly when `Parser.Parse` is
invoked. -/
theorem fetchPageI_snd (w : WebCrawler) (pa : Option String) (url : String) :
    (fetchPageI w pa url).2 = goStartsWith url w.RootUrl := by
  unfold fetchPageI
  cases h : goStartsWith url w.RootUrl with
  | false => simp [h]
  | true => rcases hp : w.Parser url with e | ⟨links, assets⟩ <;> simp [hp]

/-- Inversion of a successful `fetchPage`: the URL passed the domain
check, the parser was consulted and produced exactly the page's links
and assets, and the page fields are those set at creation. -/
theorem fetchPage_ok {w : WebCrawler} {pa : Option String} {url : String}
    {p : Page} (h : fetchPage w pa url = Except.ok p) :
    goStartsWith url w.RootUrl = true ∧
    w.Parser url = Except.ok (p.Links, p.Assets) ∧
    p.Url = url ∧ p.ChildKeys = [] ∧ p.parent = pa := by
  unfold fetchPage fetchPageI at h
  cases hg : goStartsWith url w.RootUrl with
  | false =>
    rw [hg] at h
    rw [if_pos (by decide)] at h
    simp at h
  | true =>
    rw [hg] at h
    rw [if_neg (by decide)] at h
    rcases hp : w.Parser url with e | ⟨links, assets⟩ <;> rw [hp] at h
    · simp at h
    · injection h with h1
      subst h1
      exact ⟨rfl, rfl, rfl, rfl, rfl⟩

/-- A URL without the root-URL prefix is rejected by `fetchPage` with
the fixed domain error, before the parser is consulted. -/
theorem fetchPage_out {w : WebCrawler} {pa : Option String} {url : String}
    (h : goStartsWith url w.RootUrl = false) :
    fetchPage w pa url =
      Except.error "Url invalid or outside of allowed domain" := by
  unfold fetchPage fetchPageI
  simp [h]
/-- C2: when a positive fetch limit is configured and the requested set
has reached it at the moment a successful result message is processed,
the step dispatches nothing (the page is still attached); when the
limit is 0 the budget check never suppresses dispatch. -/
theorem crawlStep_budget (w : WebCrawler) (msg : Msg) (s : LoopState)
    (page : Page) (hok : msg.res = Except.ok page) :
    (w.FetchLimit ≠ 0 → s.requested.length ≥ w.FetchLimit →
      crawlStep w msg s =
        ([], { s with store := attachToParent s.store page })) ∧
    (w.FetchLimit = 0 →
      crawlStep w msg s =
        ((dispatchLinks w page.Url page.Links s.requested).msgs,
         { s with
            store := attachToParent s.store page,
            requested := (dispatchLinks w page.Url page.Links s.requested).requested,
            fetched := s.fetched ++
              (dispatchLinks w page.Url page.Links s.requested).newFetched,
            parseCalls := s.parseCalls ++
              (dispatchLinks w page.Url page.Links s.requested).newParseCalls })) := by
  constructor
  · intro h0 hge
    unfold crawlStep
    rw [hok]
    simp only []
    rw [if_pos ⟨h0, hge⟩]
  · intro h0
    unfold crawlStep
    rw [hok]
    simp only []
    rw [if_neg (by simp [h0])]

/-- Witness for C2: one step of `stepCrawler` at its reached fetch
limit dispatches no fetch and leaves the requested set unchanged. -/
theorem crawlStep_budget_w :
    (crawlStep stepCrawler stepMsg stepState).1 = [] ∧
    (crawlStep stepCrawler stepMsg stepState).2.requested =
      stepState.requested := by
  have h := (crawlStep_budget stepCrawler stepMsg stepState stepPage rfl).1
    (by decide) (by decide)
  rw [h]
  exact ⟨rfl, rfl⟩
/-- C4: a non-root fetch-error message only appends the error paired
with the failing URL to the errors sequence — no page is created,
nothing is attached, nothing is dispatched; the serialized return value
of `Crawl` depends only on the root URL and the tree, never on the
accumulated errors; and on the mixed fixture (one good and one broken
link) the crawl still completes successfully with the broken link
recorded internally and absent from the children. -/
theorem crawl_error_tolerated :
    (∀ (w : WebCrawler) (msg : Msg) (s : LoopState) (e : String),
      msg.res = Except.error e →
      crawlStep w msg s =
        ([], { s with errors := s.errors ++ [e ++ ": " ++ msg.url] })) ∧
    (∀ (marshal : String → PageStore → Except String String)
       (r₁ r₂ : CrawlResult), r₁.rootUrl = r₂.rootUrl → r₁.store = r₂.store →
      serializeStep marshal r₁ = serializeStep marshal r₂) ∧
    errorsOf (CrawlCore mixedCrawler 10 "/r.html") =
      some ["Not Found: http://h/bad.html"] ∧
    rootChildKeys (CrawlCore mixedCrawler 10 "/r.html") =
      some ["http://h/good.html"] ∧
    Crawl mixedCrawler (fun ru _ => Except.ok ru) 10 "/r.html" =
      some (Except.ok "http://h/r.html") := by
  refine ⟨?_, ?_, by decide, by decide, by decide⟩
  · intro w msg s e herr
    unfold crawlStep
    rw [herr]
  · intro marshal r₁ r₂ h1 h2
    unfold serializeStep
    rw [h1, h2]

/-- Witness for C4: a single error message appends exactly the
`"err: url"` entry and dispatches nothing. -/
theorem crawl_error_tolerated_w :
    (crawlStep mixedCrawler { res := Except.error "E", url := "u" }
      emptyState).2.errors = ["E: u"] ∧
    (crawlStep mixedCrawler { res := Except.error "E", url := "u" }
      emptyState).1 = [] := by
  have h := crawl_error_tolerated.1 mixedCrawler
    { res := Except.error "E", url := "u" } emptyState "E" rfl
  rw [h]
  exact ⟨rfl, rfl⟩

/-- C3: a failing synchronous root fetch (in particular an
out-of-domain root) makes `Crawl` return immediately with an error
naming the cause and the offending URL and no tree; the outcome depends
only on the parser's answer at the root URL, so no further fetch is
consulted. -/
theorem crawl_root_failure :
    (∀ (w w' : WebCrawler) (fuel : Nat) (u0 e : String),
      w'.RootUrl = w.RootUrl → w'.FetchLimit = w.FetchLimit →
      w'.Parser (getAbsoluteUrl w.RootUrl u0) =
        w.Parser (getAbsoluteUrl w.RootUrl u0) →
      fetchPage w none (getAbsoluteUrl w.RootUrl u0) = Except.error e →
      CrawlCore w' fuel u0 =
        some (Except.error (e ++ ": " ++ getAbsoluteUrl w.RootUrl u0)) ∧
      ∀ marshal, Crawl w' marshal fuel u0 =
        some (Except.error (e ++ ": " ++ getAbsoluteUrl w.RootUrl u0))) ∧
    (∀ (w : WebCrawler) (u0 : String),
      goStartsWith (getAbsoluteUrl w.RootUrl u0) w.RootUrl = false →
      fetchPage w none (getAbsoluteUrl w.RootUrl u0) =
        Except.error "Url invalid or outside of allowed domain") := by
  constructor
  · intro w w' fuel u0 e hr hf hp hfe
    have hurl : getAbsoluteUrl w'.RootUrl u0 = getAbsoluteUrl w.RootUrl u0 := by
      rw [hr]
    have hfe' : fetchPage w' none (getAbsoluteUrl w.RootUrl u0) =
        Except.error e := by
      unfold fetchPage fetchPageI at hfe ⊢
      rw [hr, hp]
      exact hfe
    have hcc : CrawlCore w' fuel u0 =
        some (Except.error (e ++ ": " ++ getAbsoluteUrl w.RootUrl u0)) := by
      simp only [CrawlCore, hurl, hfe']
    refine ⟨hcc, fun marshal => ?_⟩
    unfold Crawl
    rw [hcc]
    rfl
  · intro w u0 h
    exact fetchPage_out h

/-- Witness for C3: crawling `chainCrawler` from the absolute
out-of-domain root `http://other/x` fails fatally with the domain error
naming that URL. -/
theorem crawl_root_failure_w :
    CrawlCore chainCrawler 5 "http://other/x" =
      some (Except.error
        ("Url invalid or outside of allowed domain: http://other/x")) := by
  have h := (crawl_root_failure.1 chainCrawler chainCrawler 5 "http://other/x"
    "Url invalid or outside of allowed domain" rfl rfl rfl (by decide)).1
  exact h
/-- Reading a heap at the key just set. -/
theorem PageStore.set_self (st : PageStore) (k : String) (p : Page) :
    st.set k p k = some p := by
  unfold PageStore.set
  rw [if_pos rfl]

/-- Reading a heap at a key other than the one just set. -/
theorem PageStore.set_ne (st : PageStore) (k : String) (p : Page)
    (x : String) (h : x ≠ k) : st.set k p x = st x := by
  unfold PageStore.set
  rw [if_neg h]

/-- Unfolding of `attachToParent` for a page with a parent. -/
theorem attachToParent_some (st : PageStore) (page : Page) (pu : String)
    (hpar : page.parent = some pu) :
    attachToParent st page =
      (match st pu with
       | some q => st.set pu { q with ChildKeys := q.ChildKeys ++ [page.Url] }
       | none => st).set page.Url page := by
  unfold attachToParent
  rw [hpar]

/-- C9: if the crawl loop finishes with a tree but serialization fails,
`Crawl` returns no tree and a serialization error — root-fetch failure
is not the only error condition, as the chain fixture with a failing
serializer shows concretely. -/
theorem crawl_serialize_failure :
    (∀ (w : WebCrawler)
       (marshal : String → PageStore → Except String String)
       (fuel : Nat) (u0 : String) (r : CrawlResult) (e : String),
      CrawlCore w fuel u0 = some (Except.ok r) →
      marshal r.rootUrl r.store = Except.error e →
      Crawl w marshal fuel u0 =
        some (Except.error ("Error generating JSON Site Map: " ++ e))) ∧
    isOkResult (CrawlCore chainCrawler 10 "/1.html") = true ∧
    Crawl chainCrawler (fun _ _ => Except.error "boom") 10 "/1.html" =
      some (Except.error ("Error generating JSON Site Map: " ++ "boom")) := by
  refine ⟨?_, by decide, by decide⟩
  intro w marshal fuel u0 r e hcc hm
  unfold Crawl
  rw [hcc]
  show some (serializeStep marshal r) = _
  unfold serializeStep
  rw [hm]

/-- Witness for C9: applying the serialization-failure theorem to the
chain fixture and an always-failing serializer. -/
theorem crawl_serialize_failure_w :
    Crawl chainCrawler (fun _ _ => Except.error "boom") 10 "/1.html" =
      some (Except.error ("Error generating JSON Site Map: " ++ "boom")) :=
  crawl_serialize_failure.1 chainCrawler (fun _ _ => Except.error "boom")
    10 "/1.html" chainResult "boom" rfl rfl

/-- C6: in the chain fixture (root 1 links to 2, 2 links to 3, no fetch
limit, all fetches succeeding), the finished tree satisfies
`root.Children[2].Children[3]` non-nil with 3's assets exactly as the
fetcher reported; and in general a successfully fetched page is
attached to its parent's `Children` map keyed by its own URL when its
result is processed. -/
theorem crawl_tree_chain :
    chainAssets = some ["theend.jpg"] ∧
    (∀ (st : PageStore) (page pp : Page) (pu : String),
      page.parent = some pu → st pu = some pp → st page.Url = none →
      attachToParent st page page.Url = some page ∧
      attachToParent st page pu =
        some { pp with ChildKeys := pp.ChildKeys ++ [page.Url] }) := by
  refine ⟨by decide, ?_⟩
  intro st page pp pu hpar hpp hfresh
  have hne : pu ≠ page.Url := by
    intro h
    rw [h, hfresh] at hpp
    exact Option.noConfusion hpp
  constructor
  · rw [attachToParent_some st page pu hpar, hpp]
    exact PageStore.set_self _ _ _
  · rw [attachToParent_some st page pu hpar, hpp]
    show ((st.set pu _).set page.Url page) pu = _
    rw [PageStore.set_ne _ _ _ _ hne]
    exact PageStore.set_self _ _ _

/-- Witness for C6: attaching `childFix` to `parentFix` stores the
child under its own URL and records that URL as a key of the parent's
`Children` map. -/
theorem crawl_tree_chain_w :
    attachToParent storeFix childFix "http://h/b" = some childFix ∧
    attachToParent storeFix childFix "http://h/a" =
      some { parentFix with
              ChildKeys := parentFix.ChildKeys ++ ["http://h/b"] } := by
  have h := crawl_tree_chain.2 storeFix childFix parentFix "http://h/a"
    rfl (by decide) (by decide)
  exact ⟨h.1, h.2⟩
/-- Characterization of the dispatch loop: the requested set grows by
exactly the newly fetched URLs; messages are in bijection with them (in
order); newly fetched URLs are distinct, not previously requested, and
are resolved forms of the page's links; the parse trace is the domain
filter of the fetch trace; and every dispatched success message carries
a page created by `fetchPage` with the processed page as parent. -/
theorem dispatchLinks_spec (w : WebCrawler) (pu : String) :
    ∀ (links req : List String),
      (dispatchLinks w pu links req).requested =
        req ++ (dispatchLinks w pu links req).newFetched ∧
      (dispatchLinks w pu links req).msgs.map Msg.url =
        (dispatchLinks w pu links req).newFetched ∧
      (dispatchLinks w pu links req).newFetched.Nodup ∧
      (∀ u ∈ (dispatchLinks w pu links req).newFetched, u ∉ req) ∧
      (∀ u ∈ (dispatchLinks w pu links req).newFetched,
        ∃ l ∈ links, u = getAbsoluteUrl w.RootUrl l) ∧
      (dispatchLinks w pu links req).newParseCalls =
        (dispatchLinks w pu links req).newFetched.filter
          (fun u => goStartsWith u w.RootUrl) ∧
      (∀ m ∈ (dispatchLinks w pu links req).msgs, ∀ p,
        m.res = Except.ok p →
          p.Url = m.url ∧ p.ChildKeys = [] ∧
          goStartsWith m.url w.RootUrl = true ∧
          w.Parser m.url = Except.ok (p.Links, p.Assets) ∧
          p.parent = some pu) := by
  intro links
  induction links with
  | nil =>
    intro req
    refine ⟨by simp [dispatchLinks], by simp [dispatchLinks],
      by simp [dispatchLinks], ?_, ?_, by simp [dispatchLinks], ?_⟩
    · intro u hu
      simp [dispatchLinks] at hu
    · intro u hu
      simp [dispatchLinks] at hu
    · intro m hm
      simp [dispatchLinks] at hm
  | cons l ls ih =>
    intro req
    by_cases hmem : getAbsoluteUrl w.RootUrl l ∈ req
    · have hd : dispatchLinks w pu (l :: ls) req = dispatchLinks w pu ls req := by
        simp only [dispatchLinks]
        rw [if_pos hmem]
      obtain ⟨h1, h2, h3, h4, h5, h6, h7⟩ := ih req
      rw [hd]
      refine ⟨h1, h2, h3, h4, ?_, h6, h7⟩
      intro u hu
      obtain ⟨l', hl', he⟩ := h5 u hu
      exact ⟨l', List.mem_cons_of_mem _ hl', he⟩
    · have hd : dispatchLinks w pu (l :: ls) req =
          { msgs := { res := (fetchPageI w (some pu) (getAbsoluteUrl w.RootUrl l)).1,
                      url := getAbsoluteUrl w.RootUrl l } ::
              (dispatchLinks w pu ls (req ++ [getAbsoluteUrl w.RootUrl l])).msgs,
            requested := (dispatchLinks w pu ls (req ++ [getAbsoluteUrl w.RootUrl l])).requested,
            newFetched := getAbsoluteUrl w.RootUrl l ::
              (dispatchLinks w pu ls (req ++ [getAbsoluteUrl w.RootUrl l])).newFetched,
            newParseCalls :=
              (if (fetchPageI w (some pu) (getAbsoluteUrl w.RootUrl l)).2 then
                [getAbsoluteUrl w.RootUrl l] else []) ++
              (dispatchLinks w pu ls (req ++ [getAbsoluteUrl w.RootUrl l])).newParseCalls } := by
        simp only [dispatchLinks]
        rw [if_neg hmem]
      obtain ⟨h1, h2, h3, h4, h5, h6, h7⟩ := ih (req ++ [getAbsoluteUrl w.RootUrl l])
      rw [hd]
      refine ⟨?_, ?_, ?_, ?_, ?_, ?_, ?_⟩
      · show (dispatchLinks w pu ls _).requested = req ++ (_ :: _)
        rw [h1, List.append_assoc]
        rfl
      · show _ :: List.map Msg.url (dispatchLinks w pu ls _).msgs = _ :: _
        rw [h2]
      · refine List.Nodup.cons ?_ h3
        intro hin
        exact absurd (List.mem_append_right req (List.mem_singleton.2 rfl))
          (h4 _ hin)
      · intro u hu
        rcases List.mem_cons.1 hu with rfl | hu'
        · exact hmem
        · intro hin
          exact h4 u hu' (List.mem_append_left _ hin)
      · intro u hu
        rcases List.mem_cons.1 hu with rfl | hu'
        · exact ⟨l, List.mem_cons_self _ _, rfl⟩
        · obtain ⟨l', hl', he⟩ := h5 u hu'
          exact ⟨l', List.mem_cons_of_mem _ hl', he⟩
      · show (if (fetchPageI w (some pu) _).2 then _ else []) ++ _ = _
        rw [fetchPageI_snd, h6, List.filter_cons]
        cases hgs : goStartsWith (getAbsoluteUrl w.RootUrl l) w.RootUrl <;> simp [hgs]
      · intro m hm p hok
        rcases List.mem_cons.1 hm with rfl | hm'
        · have hfp : fetchPage w (some pu) (getAbsoluteUrl w.RootUrl l) =
              Except.ok p := hok
          obtain ⟨a, b, c, d, e⟩ := fetchPage_ok hfp
          exact ⟨c, d, a, b, e⟩
        · exact h7 m hm' p hok
/-- A page without a parent (the root) is attached nowhere. -/
theorem attach_none (st : PageStore) (page : Page)
    (h : page.parent = none) : attachToParent st page = st := by
  unfold attachToParent
  rw [h]

/-- Pointwise description of the heap after attaching a page to its
stored parent. -/
theorem attach_lookup (st : PageStore) (page : Page) (pu : String)
    (pp : Page) (hpar : page.parent = some pu) (hpp : st pu = some pp)
    (hne : pu ≠ page.Url) (x : String) :
    attachToParent st page x =
      if x = page.Url then some page
      else if x = pu then
        some { pp with ChildKeys := pp.ChildKeys ++ [page.Url] }
      else st x := by
  rw [attachToParent_some st page pu hpar, hpp]
  show ((st.set pu _).set page.Url page) x = _
  by_cases h1 : x = page.Url
  · rw [if_pos h1, h1, PageStore.set_self]
  · rw [if_neg h1, PageStore.set_ne _ _ _ _ h1]
    by_cases h2 : x = pu
    · rw [if_pos h2, h2, PageStore.set_self]
    · rw [if_neg h2, PageStore.set_ne _ _ _ _ h2]

/-- Attaching a freshly fetched page preserves heap well-formedness. -/
theorem attach_wf {w : WebCrawler} {ru : String} {st : PageStore}
    {page : Page} {pu : String} {pp : Page}
    (hwf : StoreWF w ru st)
    (hpar : page.parent = some pu) (hpp : st pu = some pp)
    (hfresh : st page.Url = none)
    (hpref : goStartsWith page.Url w.RootUrl = true)
    (hnil : page.ChildKeys = []) :
    StoreWF w ru (attachToParent st page) := by
  have hne : pu ≠ page.Url := by
    intro h
    rw [h, hfresh] at hpp
    exact Option.noConfusion hpp
  have hru : ru ≠ page.Url := by
    intro h
    have hs := hwf.root_some
    rw [h, hfresh] at hs
    simp at hs
  have L := attach_lookup st page pu pp hpar hpp hne
  constructor
  · intro k p hk
    rw [L k] at hk
    by_cases h1 : k = page.Url
    · rw [if_pos h1] at hk
      rw [← Option.some.inj hk, h1]
    · rw [if_neg h1] at hk
      by_cases h2 : k = pu
      · rw [if_pos h2] at hk
        rw [← Option.some.inj hk]
        show pp.Url = k
        rw [hwf.url_eq pu pp hpp, h2]
      · rw [if_neg h2] at hk
        exact hwf.url_eq k p hk
  · intro k p hk
    rw [L k] at hk
    by_cases h1 : k = page.Url
    · rw [h1]; exact hpref
    · rw [if_neg h1] at hk
      by_cases h2 : k = pu
      · rw [h2]; exact hwf.key_dom pu pp hpp
      · rw [if_neg h2] at hk
        exact hwf.key_dom k p hk
  · intro k p hk c hc
    have move : ∀ q, st c = some q → q.parent = some k →
        ∃ q', attachToParent st page c = some q' ∧ q'.Url = c ∧
          q'.parent = some k := by
      intro q hq hqp
      have hcne : c ≠ page.Url := by
        intro h
        rw [h, hfresh] at hq
        exact Option.noConfusion hq
      by_cases hcpu : c = pu
      · refine ⟨{ pp with ChildKeys := pp.ChildKeys ++ [page.Url] }, ?_, ?_, ?_⟩
        · rw [L c, if_neg hcne, if_pos hcpu]
        · show pp.Url = c
          rw [hwf.url_eq pu pp hpp, hcpu]
        · show pp.parent = some k
          rw [hcpu] at hq
          rw [Option.some.inj (hpp.symm.trans hq)]
          exact hqp
      · refine ⟨q, ?_, hwf.url_eq c q hq, hqp⟩
        rw [L c, if_neg hcne, if_neg hcpu]
        exact hq
    rw [L k] at hk
    by_cases h1 : k = page.Url
    · rw [if_pos h1] at hk
      rw [← Option.some.inj hk, hnil] at hc
      exact absurd hc (List.not_mem_nil c)
    · rw [if_neg h1] at hk
      by_cases h2 : k = pu
      · rw [if_pos h2] at hk
        rw [← Option.some.inj hk] at hc
        have hc' : c ∈ pp.ChildKeys ++ [page.Url] := hc
        rcases List.mem_append.1 hc' with hold | hnew
        · obtain ⟨q, hq, hqu, hqp⟩ := hwf.child_ok pu pp hpp c hold
          rw [← h2] at hqp
          obtain ⟨q', hq', hqu', hqp'⟩ := move q hq hqp
          exact ⟨q', hq', hqu', hqp'⟩
        · have hcp : c = page.Url := List.mem_singleton.1 hnew
          refine ⟨page, ?_, ?_, ?_⟩
          · rw [L c, if_pos hcp]
          · rw [hcp]
          · rw [hpar, h2]
      · rw [if_neg h2] at hk
        obtain ⟨q, hq, hqu, hqp⟩ := hwf.child_ok k p hk c hc
        exact move q hq hqp
  · rw [Option.isSome_iff_exists]
    by_cases h2 : ru = pu
    · refine ⟨{ pp with ChildKeys := pp.ChildKeys ++ [page.Url] }, ?_⟩
      rw [L ru, if_neg hru, if_pos h2]
    · obtain ⟨rp, hrp⟩ := Option.isSome_iff_exists.1 hwf.root_some
      refine ⟨rp, ?_⟩
      rw [L ru, if_neg hru, if_neg h2]
      exact hrp
  · intro p hk
    rw [L ru, if_neg hru] at hk
    by_cases h2 : ru = pu
    · rw [if_pos h2] at hk
      rw [← Option.some.inj hk]
      show pp.parent = none
      rw [← h2] at hpp
      exact hwf.root_parent pp hpp
    · rw [if_neg h2] at hk
      exact hwf.root_parent p hk
  · intro k p hk
    rw [L k] at hk
    by_cases h1 : k = page.Url
    · rw [if_pos h1] at hk
      rw [← Option.some.inj hk, hnil]
      exact List.not_mem_nil ru
    · rw [if_neg h1] at hk
      by_cases h2 : k = pu
      · rw [if_pos h2] at hk
        rw [← Option.some.inj hk]
        show ru ∉ pp.ChildKeys ++ [page.Url]
        intro hin
        rcases List.mem_append.1 hin with hold | hnew
        · exact hwf.root_not_child pu pp hpp hold
        · exact hru (List.mem_singleton.1 hnew)
      · rw [if_neg h2] at hk
        exact hwf.root_not_child k p hk
/-- Branch equation of `crawlStep` for an error message. -/
theorem crawlStep_error_eq (w : WebCrawler) (msg : Msg) (s : LoopState)
    (e : String) (h : msg.res = Except.error e) :
    crawlStep w msg s =
      ([], { s with errors := s.errors ++ [e ++ ": " ++ msg.url] }) := by
  unfold crawlStep
  rw [h]

/-- Branch equation of `crawlStep` for a success message at a reached
fetch limit. -/
theorem crawlStep_ok_budget_eq (w : WebCrawler) (msg : Msg) (s : LoopState)
    (page : Page) (h : msg.res = Except.ok page)
    (hb : w.FetchLimit ≠ 0 ∧ s.requested.length ≥ w.FetchLimit) :
    crawlStep w msg s =
      ([], { s with store := attachToParent s.store page }) := by
  unfold crawlStep
  rw [h]
  simp only []
  rw [if_pos hb]

/-- Branch equation of `crawlStep` for a success message under
budget. -/
theorem crawlStep_ok_dispatch_eq (w : WebCrawler) (msg : Msg)
    (s : LoopState) (page : Page) (h : msg.res = Except.ok page)
    (hb : ¬(w.FetchLimit ≠ 0 ∧ s.requested.length ≥ w.FetchLimit)) :
    crawlStep w msg s =
      ((dispatchLinks w page.Url page.Links s.requested).msgs,
       { s with
          store := attachToParent s.store page,
          requested := (dispatchLinks w page.Url page.Links s.requested).requested,
          fetched := s.fetched ++
            (dispatchLinks w page.Url page.Links s.requested).newFetched,
          parseCalls := s.parseCalls ++
            (dispatchLinks w page.Url page.Links s.requested).newParseCalls }) := by
  unfold crawlStep
  rw [h]
  simp only []
  rw [if_neg hb]

/-- Attaching only grows the heap's domain. -/
theorem attach_mono (st : PageStore) (page : Page) :
    ∀ k, (st k).isSome → (attachToParent st page k).isSome := by
  intro k hk
  cases hpar : page.parent with
  | none => rw [attach_none st page hpar]; exact hk
  | some pu =>
    rw [attachToParent_some st page pu hpar]
    cases hpp : st pu with
    | none =>
      show ((st.set page.Url page) k).isSome
      by_cases h1 : k = page.Url
      · rw [h1, PageStore.set_self]; rfl
      · rw [PageStore.set_ne _ _ _ _ h1]; exact hk
    | some pp =>
      show (((st.set pu _).set page.Url page) k).isSome
      by_cases h1 : k = page.Url
      · rw [h1, PageStore.set_self]; rfl
      · rw [PageStore.set_ne _ _ _ _ h1]
        by_cases h2 : k = pu
        · rw [h2, PageStore.set_self]; rfl
        · rw [PageStore.set_ne _ _ _ _ h2]; exact hk

/-- Every key of the heap after an attach was present before or is the
attached page's URL. -/
theorem attach_dom (st : PageStore) (page : Page) :
    ∀ k, (attachToParent st page k).isSome →
      (st k).isSome ∨ k = page.Url := by
  intro k hk
  by_cases h1 : k = page.Url
  · exact Or.inr h1
  · refine Or.inl ?_
    cases hpar : page.parent with
    | none => rw [attach_none st page hpar] at hk; exact hk
    | some pu =>
      rw [attachToParent_some st page pu hpar] at hk
      cases hpp : st pu with
      | none =>
        rw [hpp] at hk
        have h3 : (st.set page.Url page) k = st k :=
          PageStore.set_ne _ _ _ _ h1
        have hk' : ((st.set page.Url page) k).isSome := hk
        rw [h3] at hk'
        exact hk'
      | some pp =>
        rw [hpp] at hk
        have h3 := PageStore.set_ne
          (st.set pu { pp with ChildKeys := pp.ChildKeys ++ [page.Url] })
          page.Url page k h1
        have hk' : (((st.set pu { pp with
            ChildKeys := pp.ChildKeys ++ [page.Url] }).set page.Url page)
            k).isSome := hk
        rw [h3] at hk'
        by_cases h2 : k = pu
        · rw [h2, hpp]; rfl
        · rw [PageStore.set_ne _ _ _ _ h2] at hk'
          exact hk'

/-- An attach of a fresh page never reassigns the `Url`, `Links`,
`Assets` or `parent` field of a stored page — only `Children` grows. -/
theorem attach_persist (st : PageStore) (page : Page)
    (hfresh : st page.Url = none) :
    ∀ k p, st k = some p →
      ∃ p', attachToParent st page k = some p' ∧ p'.Url = p.Url ∧
        p'.Links = p.Links ∧ p'.Assets = p.Assets ∧
        p'.parent = p.parent := by
  intro k p hk
  have h1 : k ≠ page.Url := by
    intro h
    rw [h, hfresh] at hk
    exact Option.noConfusion hk
  cases hpar : page.parent with
  | none =>
    rw [attach_none st page hpar]
    exact ⟨p, hk, rfl, rfl, rfl, rfl⟩
  | some pu =>
    cases hpp : st pu with
    | none =>
      rw [attachToParent_some st page pu hpar, hpp]
      show ∃ p', (st.set page.Url page) k = some p' ∧ _
      rw [PageStore.set_ne _ _ _ _ h1]
      exact ⟨p, hk, rfl, rfl, rfl, rfl⟩
    | some pp =>
      have hne : pu ≠ page.Url := by
        intro h
        rw [h, hfresh] at hpp
        exact Option.noConfusion hpp
      rw [attach_lookup st page pu pp hpar hpp hne k, if_neg h1]
      by_cases h2 : k = pu
      · rw [if_pos h2]
        have : pp = p := by
          rw [h2] at hk
          exact Option.some.inj (hpp.symm.trans hk)
        rw [this]
        exact ⟨_, rfl, rfl, rfl, rfl, rfl⟩
      · rw [if_neg h2]
        exact ⟨p, hk, rfl, rfl, rfl, rfl⟩

/-- Transport of message well-formedness along heap growth and
requested-set growth. -/
theorem MsgWF_mono {w : WebCrawler} {ru : String} {st st' : PageStore}
    {req req' : List String} {m : Msg}
    (hm : MsgWF w ru st req m) (hreq : ∀ u, u ∈ req → u ∈ req')
    (hmono : ∀ k, (st k).isSome → (st' k).isSome)
    (hnone : st m.url = none → st' m.url = none) :
    MsgWF w ru st' req' m := by
  refine ⟨hreq _ hm.1, ?_⟩
  intro p hp
  obtain ⟨a, b, c, d, e⟩ := hm.2 p hp
  refine ⟨a, b, c, d, ?_⟩
  rcases e with h | ⟨pu, h1, h2, h3⟩
  · exact Or.inl h
  · exact Or.inr ⟨pu, h1, hmono _ h2, hnone h3⟩
/-- One reducer step preserves the loop invariant; the requested set
only grows (the old one is a prefix of the new one); and the `Url`,
`Links`, `Assets` and `parent` fields of every stored page persist
unchanged. -/
theorem crawlStep_inv {w : WebCrawler} {ru : String} {wt : Nat}
    {msg : Msg} {rest : List Msg} {s : LoopState}
    (hInv : LoopInv w ru (wt + 1) (msg :: rest) s) :
    LoopInv w ru (wt + (crawlStep w msg s).1.length)
      (rest ++ (crawlStep w msg s).1) (crawlStep w msg s).2 ∧
    s.requested <+: (crawlStep w msg s).2.requested ∧
    (∀ k p, s.store k = some p →
      ∃ p', (crawlStep w msg s).2.store k = some p' ∧ p'.Url = p.Url ∧
        p'.Links = p.Links ∧ p'.Assets = p.Assets ∧
        p'.parent = p.parent) ∧
    (crawlStep w msg s).2.requested.length =
      s.requested.length + (crawlStep w msg s).1.length ∧
    (∀ u, u ∈ (crawlStep w msg s).2.requested → u ∈ s.requested ∨
      ∃ url links assets, w.Parser url = Except.ok (links, assets) ∧
        ∃ l ∈ links, u = getAbsoluteUrl w.RootUrl l) := by
  have hrlen : rest.length = wt := by
    have h := hInv.qlen
    rw [List.length_cons] at h
    exact Nat.succ.inj h
  have hqtail : (rest.map Msg.url).Nodup := by
    have hq := hInv.q_nodup
    rw [List.map_cons] at hq
    exact (List.nodup_cons.1 hq).2
  have hqhead : msg.url ∉ rest.map Msg.url := by
    have hq := hInv.q_nodup
    rw [List.map_cons] at hq
    exact (List.nodup_cons.1 hq).1
  rcases hres : msg.res with e | page
  · rw [crawlStep_error_eq w msg s e hres]
    dsimp only
    rw [List.append_nil]
    refine ⟨?_, List.prefix_refl _, ?_, by simp, fun u hu => Or.inl hu⟩
    · refine ⟨by simp [hrlen], hInv.req_nodup,
        hInv.fetched_eq, hInv.parse_eq, ?_, hqtail, hInv.dom_req,
        hInv.store_wf⟩
      intro m hm
      exact hInv.msgs_wf m (List.mem_cons_of_mem _ hm)
    · intro k p hk
      exact ⟨p, hk, rfl, rfl, rfl, rfl⟩
  · obtain ⟨hmu, hwfm⟩ := hInv.msgs_wf msg (List.mem_cons_self _ _)
    obtain ⟨hU, hCK, hPref, hParser, hPar⟩ := hwfm page hres
    have hfacts : StoreWF w ru (attachToParent s.store page) ∧
        (∀ k p, s.store k = some p →
          ∃ p', attachToParent s.store page k = some p' ∧
            p'.Url = p.Url ∧ p'.Links = p.Links ∧ p'.Assets = p.Assets ∧
            p'.parent = p.parent) ∧
        (∀ u, u ≠ page.Url → s.store u = none →
          attachToParent s.store page u = none) ∧
        (attachToParent s.store page page.Url).isSome := by
      rcases hPar with ⟨hpn, hmru⟩ | ⟨pu, hpar, hpuSome, hfreshU⟩
      · rw [attach_none s.store page hpn]
        refine ⟨hInv.store_wf, ?_, ?_, ?_⟩
        · intro k p hk
          exact ⟨p, hk, rfl, rfl, rfl, rfl⟩
        · intro u _ h
          exact h
        · rw [hU, hmru]
          exact hInv.store_wf.root_some
      · have hfresh : s.store page.Url = none := by
          rw [hU]
          exact hfreshU
        obtain ⟨pp, hpp⟩ := Option.isSome_iff_exists.1 hpuSome
        have hne : pu ≠ page.Url := by
          intro h
          rw [h, hfresh] at hpp
          exact Option.noConfusion hpp
        refine ⟨?_, attach_persist s.store page hfresh, ?_, ?_⟩
        · exact attach_wf hInv.store_wf hpar hpp hfresh
            (by rw [hU]; exact hPref) hCK
        · intro u hu hnone
          have hupu : u ≠ pu := by
            intro h
            rw [h, hpp] at hnone
            exact Option.noConfusion hnone
          rw [attach_lookup s.store page pu pp hpar hpp hne u, if_neg hu,
            if_neg hupu]
          exact hnone
        · rw [attach_lookup s.store page pu pp hpar hpp hne page.Url,
            if_pos rfl]
          rfl
    obtain ⟨hwf', hpersist, hnonep, hselfSome⟩ := hfacts
    have hdom' : ∀ k, ((attachToParent s.store page) k).isSome →
        k ∈ s.requested := by
      intro k hk
      rcases attach_dom s.store page k hk with h | h
      · exact hInv.dom_req k h
      · rw [h, hU]
        exact hmu
    have hrest_wf : ∀ req', (∀ u, u ∈ s.requested → u ∈ req') →
        ∀ m ∈ rest, MsgWF w ru (attachToParent s.store page) req' m := by
      intro req' hsub m hm
      refine MsgWF_mono (hInv.msgs_wf m (List.mem_cons_of_mem _ hm))
        (fun u hu => hsub u hu) (attach_mono s.store page) ?_
      intro hnone
      refine hnonep m.url ?_ hnone
      intro h
      have hmem : m.url ∈ rest.map Msg.url := List.mem_map_of_mem Msg.url hm
      rw [h, hU] at hmem
      exact hqhead hmem
    by_cases hb : w.FetchLimit ≠ 0 ∧ s.requested.length ≥ w.FetchLimit
    · rw [crawlStep_ok_budget_eq w msg s page hres hb]
      dsimp only
      rw [List.append_nil]
      refine ⟨?_, List.prefix_refl _, ?_, by simp, fun u hu => Or.inl hu⟩
      · refine ⟨by simp [hrlen], hInv.req_nodup,
          hInv.fetched_eq, hInv.parse_eq,
          hrest_wf s.requested (fun u hu => hu), hqtail, hdom', hwf'⟩
      · exact hpersist
    · rw [crawlStep_ok_dispatch_eq w msg s page hres hb]
      dsimp only
      obtain ⟨hD1, hD2, hD3, hD4, hD5, hD6, hD7⟩ :=
        dispatchLinks_spec w page.Url page.Links s.requested
      have hsub : ∀ u, u ∈ s.requested →
          u ∈ (dispatchLinks w page.Url page.Links s.requested).requested := by
        intro u hu
        rw [hD1]
        exact List.mem_append_left _ hu
      refine ⟨?_, ?_, ?_, ?_, ?_⟩
      · refine ⟨?_, ?_, ?_, ?_, ?_, ?_, ?_, hwf'⟩
        · rw [List.length_append, hrlen]
        · rw [hD1]
          refine List.Nodup.append hInv.req_nodup hD3 ?_
          intro a ha hb'
          exact hD4 a hb' ha
        · rw [hInv.fetched_eq, hD1]
        · rw [hInv.parse_eq, hD6, hD1, List.filter_append]
        · intro m hm
          rcases List.mem_append.1 hm with hm' | hm'
          · exact hrest_wf _ hsub m hm'
          · have hmurl : m.url ∈
                (dispatchLinks w page.Url page.Links s.requested).newFetched := by
              rw [← hD2]
              exact List.mem_map_of_mem Msg.url hm'
            refine ⟨?_, ?_⟩
            · rw [hD1]
              exact List.mem_append_right _ hmurl
            · intro p hp
              obtain ⟨a, b, c, d2, e⟩ := hD7 m hm' p hp
              refine ⟨a, b, c, d2, Or.inr ⟨page.Url, e, hselfSome, ?_⟩⟩
              cases hst : attachToParent s.store page m.url with
              | none => exact hst
              | some q =>
                have hkin : m.url ∈ s.requested := hdom' m.url (by rw [hst]; rfl)
                exact absurd hkin (hD4 m.url hmurl)
        · rw [List.map_append, hD2]
          refine List.Nodup.append hqtail hD3 ?_
          intro a ha hb'
          have hain : a ∈ s.requested := by
            obtain ⟨m', hm', hfa⟩ := List.mem_map.1 ha
            rw [← hfa]
            exact (hInv.msgs_wf m' (List.mem_cons_of_mem _ hm')).1
          exact hD4 a hb' hain
        · intro k hk
          rw [hD1]
          exact List.mem_append_left _ (hdom' k hk)
      · rw [hD1]
        exact List.prefix_append _ _
      · exact hpersist
      · rw [hD1, List.length_append, ← hD2, List.length_map]
      · intro u hu
        rw [hD1] at hu
        rcases List.mem_append.1 hu with hu' | hu'
        · exact Or.inl hu'
        · obtain ⟨l, hl, he⟩ := hD5 u hu'
          exact Or.inr ⟨msg.url, page.Links, page.Assets, hParser, l, hl, he⟩
/-- The reducer loop returns the state unchanged exactly when the
outstanding counter is 0, for any fuel. -/
theorem crawlLoop_zero (w : WebCrawler) (fuel : Nat) (queue : List Msg)
    (s : LoopState) : crawlLoop w fuel 0 queue s = some s := by
  cases fuel <;> rfl

/-- With outstanding fetches but no fuel left the loop does not
finish. -/
theorem crawlLoop_no_fuel (w : WebCrawler) (wt : Nat) (queue : List Msg)
    (s : LoopState) : crawlLoop w 0 (wt + 1) queue s = none := rfl

/-- Unfolding of one loop iteration: receive the head message, process
it, count the dispatched fetches into `waiting` (which the iteration
also decrements once) and enqueue their result messages. -/
theorem crawlLoop_succ (w : WebCrawler) (fuel wt : Nat) (msg : Msg)
    (rest : List Msg) (s : LoopState) :
    crawlLoop w (fuel + 1) (wt + 1) (msg :: rest) s =
      crawlLoop w fuel (wt + (crawlStep w msg s).1.length)
        (rest ++ (crawlStep w msg s).1) (crawlStep w msg s).2 := rfl

/-- A positive outstanding counter with an empty queue blocks
forever. -/
theorem crawlLoop_succ_nil (w : WebCrawler) (fuel wt : Nat)
    (s : LoopState) : crawlLoop w (fuel + 1) (wt + 1) [] s = none := rfl

/-- Running the reducer loop from an invariant state to completion
yields an invariant final state with an empty queue and zero
outstanding count; the requested set grows monotonically (the initial
one is a prefix of the final one); and the `Url`, `Links`, `Assets`
and `parent` fields of every stored page persist. -/
theorem crawlLoop_inv {w : WebCrawler} {ru : String} :
    ∀ (fuel wt : Nat) (queue : List Msg) (s s' : LoopState),
      LoopInv w ru wt queue s → crawlLoop w fuel wt queue s = some s' →
      LoopInv w ru 0 [] s' ∧ s.requested <+: s'.requested ∧
      (∀ k p, s.store k = some p →
        ∃ p', s'.store k = some p' ∧ p'.Url = p.Url ∧ p'.Links = p.Links ∧
          p'.Assets = p.Assets ∧ p'.parent = p.parent) := by
  intro fuel
  induction fuel with
  | zero =>
    intro wt queue s s' hInv hrun
    cases wt with
    | zero =>
      rw [crawlLoop_zero] at hrun
      obtain rfl := Option.some.inj hrun
      have hq : queue = [] := List.length_eq_zero.1 hInv.qlen
      subst hq
      exact ⟨hInv, List.prefix_refl _,
        fun k p hk => ⟨p, hk, rfl, rfl, rfl, rfl⟩⟩
    | succ wt' =>
      rw [crawlLoop_no_fuel] at hrun
      exact Option.noConfusion hrun
  | succ fuel ih =>
    intro wt queue s s' hInv hrun
    cases wt with
    | zero =>
      rw [crawlLoop_zero] at hrun
      obtain rfl := Option.some.inj hrun
      have hq : queue = [] := List.length_eq_zero.1 hInv.qlen
      subst hq
      exact ⟨hInv, List.prefix_refl _,
        fun k p hk => ⟨p, hk, rfl, rfl, rfl, rfl⟩⟩
    | succ wt' =>
      cases queue with
      | nil =>
        have h := hInv.qlen
        rw [List.length_nil] at h
        exact Nat.noConfusion h
      | cons msg rest =>
        rw [crawlLoop_succ] at hrun
        obtain ⟨hInv', hpre, hper, -, -⟩ := crawlStep_inv hInv
        obtain ⟨hfin, hpre', hper'⟩ := ih _ _ _ _ hInv' hrun
        refine ⟨hfin, hpre.trans hpre', ?_⟩
        intro k p hk
        obtain ⟨p1, h1, u1, l1, a1, pa1⟩ := hper k p hk
        obtain ⟨p2, h2, u2, l2, a2, pa2⟩ := hper' k p1 h1
        exact ⟨p2, h2, u2.trans u1, l2.trans l1, a2.trans a1, pa2.trans pa1⟩

/-- Termination of the reducer loop: when every URL the parser can
reveal resolves into a finite universe `U` and the requested set lives
in `U`, fuel `2 |U| + waiting` suffices for the loop to finish. -/
theorem crawlLoop_total {w : WebCrawler} {ru : String} (U : List String)
    (hU : ∀ url links assets, w.Parser url = Except.ok (links, assets) →
      ∀ l ∈ links, getAbsoluteUrl w.RootUrl l ∈ U) :
    ∀ (fuel wt : Nat) (queue : List Msg) (s : LoopState),
      LoopInv w ru wt queue s → (∀ u ∈ s.requested, u ∈ U) →
      2 * (U.length - s.requested.length) + wt ≤ fuel →
      (crawlLoop w fuel wt queue s).isSome := by
  intro fuel
  induction fuel with
  | zero =>
    intro wt queue s hInv hsub hm
    cases wt with
    | zero => rw [crawlLoop_zero]; rfl
    | succ wt' => omega
  | succ fuel ih =>
    intro wt queue s hInv hsub hm
    cases wt with
    | zero => rw [crawlLoop_zero]; rfl
    | succ wt' =>
      cases queue with
      | nil =>
        have h := hInv.qlen
        rw [List.length_nil] at h
        exact Nat.noConfusion h
      | cons msg rest =>
        rw [crawlLoop_succ]
        obtain ⟨hInv', hpre, -, hlen, horig⟩ := crawlStep_inv hInv
        have hsub' : ∀ u ∈ (crawlStep w msg s).2.requested, u ∈ U := by
          intro u hu
          rcases horig u hu with h | ⟨url, links, assets, hp, l, hl, he⟩
          · exact hsub u h
          · rw [he]
            exact hU url links assets hp l hl
        refine ih _ _ _ hInv' hsub' ?_
        have hle : (crawlStep w msg s).2.requested.length ≤ U.length :=
          List.Subperm.length_le (List.Nodup.subperm hInv'.req_nodup
            (fun u hu => hsub' u hu))
        rw [hlen] at hle
        omega
/-- The state set up by `Crawl` before the reducer loop satisfies the
loop invariant: the root URL is requested (and fetched) before the loop
starts, the heap holds exactly the root page, and the queue holds the
synthetic root message. -/
theorem init_inv {w : WebCrawler} {url : String} {page : Page}
    (hfp : fetchPage w none url = Except.ok page) :
    LoopInv w url 1 [{ res := Except.ok page, url := url }]
      { requested := [url], store := PageStore.empty.set url page,
        errors := [], fetched := [url],
        parseCalls :=
          if (fetchPageI w none url).2 then [url] else [] } := by
  obtain ⟨hPref, hParser, hUrl, hCK, hpar⟩ := fetchPage_ok hfp
  have hstore : ∀ k p, (PageStore.empty.set url page) k = some p →
      k = url ∧ p = page := by
    intro k p hk
    by_cases h : k = url
    · rw [h, PageStore.set_self] at hk
      exact ⟨h, (Option.some.inj hk).symm⟩
    · rw [PageStore.set_ne _ _ _ _ h] at hk
      exact absurd hk (by intro hc; exact Option.noConfusion hc)
  constructor
  · rfl
  · exact List.nodup_singleton _
  · rfl
  · show (if (fetchPageI w none url).2 = true then [url] else []) = _
    rw [fetchPageI_snd, hPref]
    show [url] = List.filter (fun u => goStartsWith u w.RootUrl) [url]
    rw [List.filter_cons]
    simp [hPref]
  · intro m hm
    rw [List.mem_singleton] at hm
    subst hm
    refine ⟨List.mem_singleton.2 rfl, ?_⟩
    intro p hp
    obtain rfl := (Except.ok.inj hp).symm
    exact ⟨hUrl, hCK, hPref, hParser, Or.inl ⟨hpar, rfl⟩⟩
  · exact List.nodup_singleton _
  · intro k hk
    dsimp only at hk ⊢
    cases hsk : (PageStore.empty.set url page) k with
    | none => rw [hsk] at hk; exact Bool.noConfusion hk
    | some p =>
      obtain ⟨rfl, -⟩ := hstore k p hsk
      exact List.mem_singleton.2 rfl
  · constructor
    · intro k p hk
      obtain ⟨rfl, rfl⟩ := hstore k p hk
      exact hUrl
    · intro k p hk
      obtain ⟨rfl, rfl⟩ := hstore k p hk
      exact hPref
    · intro k p hk c hc
      obtain ⟨rfl, rfl⟩ := hstore k p hk
      rw [hCK] at hc
      exact absurd hc (List.not_mem_nil c)
    · show ((PageStore.empty.set url page) url).isSome = true
      rw [PageStore.set_self]
      rfl
    · intro p hk
      dsimp only at hk
      rw [PageStore.set_self] at hk
      obtain rfl := (Option.some.inj hk).symm
      exact hpar
    · intro k p hk
      obtain ⟨rfl, rfl⟩ := hstore k p hk
      rw [hCK]
      exact List.not_mem_nil _
/-- Inversion of a successful `CrawlCore` run: the root fetch
succeeded, the reducer loop finished from the initial state, and the
result packages the final loop state with the resolved root URL. -/
theorem CrawlCore_ok {w : WebCrawler} {fuel : Nat} {u0 : String}
    {r : CrawlResult} (h : CrawlCore w fuel u0 = some (Except.ok r)) :
    ∃ page s',
      fetchPage w none (getAbsoluteUrl w.RootUrl u0) = Except.ok page ∧
      crawlLoop w fuel 1
        [{ res := Except.ok page, url := getAbsoluteUrl w.RootUrl u0 }]
        { requested := [getAbsoluteUrl w.RootUrl u0],
          store := PageStore.empty.set (getAbsoluteUrl w.RootUrl u0) page,
          errors := [], fetched := [getAbsoluteUrl w.RootUrl u0],
          parseCalls :=
            if (fetchPageI w none (getAbsoluteUrl w.RootUrl u0)).2 then
              [getAbsoluteUrl w.RootUrl u0] else [] } = some s' ∧
      r = { rootUrl := getAbsoluteUrl w.RootUrl u0, store := s'.store,
            errors := s'.errors, requested := s'.requested,
            fetched := s'.fetched, parseCalls := s'.parseCalls } := by
  simp only [CrawlCore] at h
  cases hfp : fetchPage w none (getAbsoluteUrl w.RootUrl u0) with
  | error e =>
    rw [hfp] at h
    simp at h
  | ok page =>
    rw [hfp] at h
    have h' : (match crawlLoop w fuel 1
        [{ res := Except.ok page, url := getAbsoluteUrl w.RootUrl u0 }]
        { requested := [getAbsoluteUrl w.RootUrl u0],
          store := PageStore.empty.set (getAbsoluteUrl w.RootUrl u0) page,
          errors := [], fetched := [getAbsoluteUrl w.RootUrl u0],
          parseCalls :=
            if (fetchPageI w none (getAbsoluteUrl w.RootUrl u0)).2 then
              [getAbsoluteUrl w.RootUrl u0] else [] } with
      | none => (none : Option (Except String CrawlResult))
      | some s =>
          some (Except.ok
            { rootUrl := getAbsoluteUrl w.RootUrl u0, store := s.store,
              errors := s.errors, requested := s.requested,
              fetched := s.fetched, parseCalls := s.parseCalls })) =
        some (Except.ok r) := h
    cases hrun : crawlLoop w fuel 1
        [{ res := Except.ok page, url := getAbsoluteUrl w.RootUrl u0 }]
        { requested := [getAbsoluteUrl w.RootUrl u0],
          store := PageStore.empty.set (getAbsoluteUrl w.RootUrl u0) page,
          errors := [], fetched := [getAbsoluteUrl w.RootUrl u0],
          parseCalls :=
            if (fetchPageI w none (getAbsoluteUrl w.RootUrl u0)).2 then
              [getAbsoluteUrl w.RootUrl u0] else [] } with
    | none =>
      rw [hrun] at h'
      simp at h'
    | some s' =>
      rw [hrun] at h'
      simp only [Option.some.injEq, Except.ok.injEq] at h'
      exact ⟨page, s', rfl, hrun, h'.symm⟩

/-- Final-state facts of a successful crawl: the fetch trace coincides
with the requested set, it is duplicate-free, the parse trace is its
in-domain filter, the root URL heads the requested set, and the
finished heap is well formed. -/
theorem CrawlCore_final {w : WebCrawler} {fuel : Nat} {u0 : String}
    {r : CrawlResult} (h : CrawlCore w fuel u0 = some (Except.ok r)) :
    r.rootUrl = getAbsoluteUrl w.RootUrl u0 ∧
    r.fetched = r.requested ∧
    r.requested.Nodup ∧
    r.parseCalls = r.requested.filter (fun u => goStartsWith u w.RootUrl) ∧
    [r.rootUrl] <+: r.requested ∧
    StoreWF w r.rootUrl r.store := by
  obtain ⟨page, s', hfp, hrun, hr⟩ := CrawlCore_ok h
  have hInv0 := init_inv hfp
  obtain ⟨hfin, hpre, -⟩ := crawlLoop_inv fuel 1 _ _ _ hInv0 hrun
  subst hr
  exact ⟨rfl, hfin.fetched_eq, hfin.req_nodup, hfin.parse_eq, hpre,
    hfin.store_wf⟩

/-- A single reducer step never removes entries from the requested
set. -/
theorem crawlStep_mono (w : WebCrawler) (msg : Msg) (s : LoopState) :
    s.requested <+: (crawlStep w msg s).2.requested := by
  rcases hres : msg.res with e | page
  · rw [crawlStep_error_eq w msg s e hres]
  · by_cases hb : w.FetchLimit ≠ 0 ∧ s.requested.length ≥ w.FetchLimit
    · rw [crawlStep_ok_budget_eq w msg s page hres hb]
    · rw [crawlStep_ok_dispatch_eq w msg s page hres hb]
      dsimp only
      rw [(dispatchLinks_spec w page.Url page.Links s.requested).1]
      exact List.prefix_append _ _

/-- Over any completed run of the reducer loop, with no hypotheses on
the state, the requested set only grows: an entry, once present, is
never removed. -/
theorem crawlLoop_mono {w : WebCrawler} :
    ∀ (fuel wt : Nat) (queue : List Msg) (s s' : LoopState),
      crawlLoop w fuel wt queue s = some s' →
      s.requested <+: s'.requested := by
  intro fuel
  induction fuel with
  | zero =>
    intro wt queue s s' hrun
    cases wt with
    | zero =>
      rw [crawlLoop_zero] at hrun
      obtain rfl := Option.some.inj hrun
      exact List.prefix_refl _
    | succ wt' =>
      rw [crawlLoop_no_fuel] at hrun
      exact Option.noConfusion hrun
  | succ fuel ih =>
    intro wt queue s s' hrun
    cases wt with
    | zero =>
      rw [crawlLoop_zero] at hrun
      obtain rfl := Option.some.inj hrun
      exact List.prefix_refl _
    | succ wt' =>
      cases queue with
      | nil =>
        rw [crawlLoop_succ_nil] at hrun
        exact Option.noConfusion hrun
      | cons msg rest =>
        rw [crawlLoop_succ] at hrun
        exact (crawlStep_mono w msg s).trans (ih _ _ _ _ hrun)
/-- C1: each URL is passed to the Page Fetcher at most once: the trace
of `fetchPage` calls coincides with the requested set and is
duplicate-free (hence so is the `Parser.Parse` trace, a subset of it);
the root URL is recorded in the requested set before the reducer loop
starts (it heads the set); and over any loop run the requested set only
grows — an entry, once present, is never removed. -/
theorem crawl_single_fetch :
    (∀ (w : WebCrawler) (fuel : Nat) (u0 : String) (r : CrawlResult),
      CrawlCore w fuel u0 = some (Except.ok r) →
      r.fetched = r.requested ∧ r.fetched.Nodup ∧ r.parseCalls.Nodup ∧
      (∀ u ∈ r.parseCalls, u ∈ r.fetched) ∧
      r.requested.head? = some r.rootUrl) ∧
    (∀ (w : WebCrawler) (fuel wt : Nat) (queue : List Msg)
       (s s' : LoopState), crawlLoop w fuel wt queue s = some s' →
      s.requested <+: s'.requested) := by
  constructor
  · intro w fuel u0 r h
    obtain ⟨hroot, hfeq, hnd, hparse, hpre, hwf⟩ := CrawlCore_final h
    refine ⟨hfeq, by rw [hfeq]; exact hnd, ?_, ?_, ?_⟩
    · rw [hparse]
      exact hnd.filter _
    · intro u hu
      rw [hparse] at hu
      rw [hfeq]
      exact (List.mem_filter.1 hu).1
    · obtain ⟨t, ht⟩ := hpre
      rw [← ht]
      rfl
  · intro w fuel wt queue s s' h
    exact crawlLoop_mono fuel wt queue s s' h

/-- Witness for C1 on the chain fixture: the fetch trace equals the
requested set and has no duplicates. -/
theorem crawl_single_fetch_w :
    chainResult.fetched = chainResult.requested ∧
    chainResult.fetched.Nodup := by
  have h := crawl_single_fetch.1 chainCrawler 10 "/1.html" chainResult rfl
  exact ⟨h.1, h.2.1⟩

/-- Counterexample to C5 as stated: in the out-of-domain-link fixture
the external link `http://evil.com/x` is dispatched (it enters the
requested set and the `fetchPage` trace) and its rejection is recorded
in the errors sequence — it is not silently dropped. -/
theorem crawl_external_not_silent :
    errorsOf (CrawlCore externalCrawler 10 "/a.html") =
      some ["Url invalid or outside of allowed domain: http://evil.com/x"] ∧
    fetchedOf (CrawlCore externalCrawler 10 "/a.html") =
      some ["http://h/a.html", "http://evil.com/x"] :=
  ⟨by decide, by decide⟩

/-- C5 amended: a discovered link whose absolute form lacks the
root-URL prefix never reaches `Parser.Parse` and never appears as a key
of any `Children` map — but it is not silently dropped: it is marked
requested and dispatched to `fetchPage`, which rejects it before
parsing, and the rejection is recorded in the internal errors sequence,
as the out-of-domain fixture shows. -/
theorem crawl_domain_confinement :
    (∀ (w : WebCrawler) (fuel : Nat) (u0 : String) (r : CrawlResult),
      CrawlCore w fuel u0 = some (Except.ok r) →
      (∀ u ∈ r.parseCalls, goStartsWith u w.RootUrl = true) ∧
      (∀ k p, r.store k = some p → ∀ c ∈ p.ChildKeys,
        goStartsWith c w.RootUrl = true)) ∧
    parseCallsOf (CrawlCore externalCrawler 10 "/a.html") =
      some ["http://h/a.html"] ∧
    rootChildKeys (CrawlCore externalCrawler 10 "/a.html") = some [] ∧
    fetchedOf (CrawlCore externalCrawler 10 "/a.html") =
      some ["http://h/a.html", "http://evil.com/x"] ∧
    errorsOf (CrawlCore externalCrawler 10 "/a.html") =
      some ["Url invalid or outside of allowed domain: http://evil.com/x"] := by
  refine ⟨?_, by decide, by decide, by decide, by decide⟩
  intro w fuel u0 r h
  obtain ⟨-, -, -, hparse, -, hwf⟩ := CrawlCore_final h
  constructor
  · intro u hu
    rw [hparse] at hu
    exact (List.mem_filter.1 hu).2
  · intro k p hk c hc
    obtain ⟨q, hq, -, -⟩ := hwf.child_ok k p hk c hc
    exact hwf.key_dom c q hq

/-- Witness for the amended C5: a URL in the chain fixture's parse
trace carries the root prefix. -/
theorem crawl_domain_confinement_w :
    goStartsWith "http://h/2.html" chainCrawler.RootUrl = true :=
  (crawl_domain_confinement.1 chainCrawler 10 "/1.html" chainResult
    rfl).1 "http://h/2.html" (by decide)

/-- C10: tree invariant of every finished crawl — every stored page is
keyed by its own URL; every `Children` key maps to a stored page whose
`Url` is that key and whose parent is the enclosing page; the root page
has no parent and is never a `Children` key; pages are created only by
`fetchPage`, which fixes `Url`, `parent`, `Links` and `Assets` at
creation; and no completed loop run reassigns those fields. -/
theorem crawl_tree_wf :
    (∀ (w : WebCrawler) (fuel : Nat) (u0 : String) (r : CrawlResult),
      CrawlCore w fuel u0 = some (Except.ok r) →
      (∀ k p, r.store k = some p → p.Url = k ∧
        ∀ c ∈ p.ChildKeys, ∃ q, r.store c = some q ∧ q.Url = c ∧
          q.parent = some k) ∧
      (∃ rp, r.store r.rootUrl = some rp ∧ rp.parent = none) ∧
      (∀ k p, r.store k = some p → r.rootUrl ∉ p.ChildKeys)) ∧
    (∀ (w : WebCrawler) (pa : Option String) (url : String) (p : Page),
      fetchPage w pa url = Except.ok p →
      p.Url = url ∧ p.parent = pa ∧ p.ChildKeys = [] ∧
      w.Parser url = Except.ok (p.Links, p.Assets)) ∧
    (∀ (w : WebCrawler) (ru : String) (fuel wt : Nat) (queue : List Msg)
       (s s' : LoopState), LoopInv w ru wt queue s →
      crawlLoop w fuel wt queue s = some s' →
      ∀ k p, s.store k = some p →
        ∃ p', s'.store k = some p' ∧ p'.Url = p.Url ∧
          p'.Links = p.Links ∧ p'.Assets = p.Assets ∧
          p'.parent = p.parent) := by
  refine ⟨?_, ?_, ?_⟩
  · intro w fuel u0 r h
    obtain ⟨-, -, -, -, -, hwf⟩ := CrawlCore_final h
    refine ⟨?_, ?_, hwf.root_not_child⟩
    · intro k p hk
      exact ⟨hwf.url_eq k p hk, hwf.child_ok k p hk⟩
    · obtain ⟨rp, hrp⟩ := Option.isSome_iff_exists.1 hwf.root_some
      exact ⟨rp, hrp, hwf.root_parent rp hrp⟩
  · intro w pa url p h
    obtain ⟨-, hparser, hurl, hck, hpar⟩ := fetchPage_ok h
    exact ⟨hurl, hpar, hck, hparser⟩
  · intro w ru fuel wt queue s s' hInv hrun
    exact (crawlLoop_inv fuel wt queue s s' hInv hrun).2.2

/-- Witness for C10: in the chain fixture's finished tree the root page
is stored with no parent. -/
theorem crawl_tree_wf_w :
    (chainResult.store chainResult.rootUrl).map Page.parent =
      some none := by
  obtain ⟨rp, hrp, hpar⟩ :=
    (crawl_tree_wf.1 chainCrawler 10 "/1.html" chainResult rfl).2.1
  rw [hrp]
  show some rp.parent = some none
  rw [hpar]

/-- C8: the reducer loop exits exactly when the outstanding count
reaches 0 (for any fuel and queue); each iteration adds the number of
dispatched fetches to the count and decrements it once for the
processed message; and when every URL the parser can reveal resolves
into a finite universe `U` containing the root, the crawl terminates
within fuel `2 |U|`. -/
theorem crawl_termination :
    (∀ (w : WebCrawler) (fuel : Nat) (queue : List Msg) (s : LoopState),
      crawlLoop w fuel 0 queue s = some s) ∧
    (∀ (w : WebCrawler) (fuel wt : Nat) (msg : Msg) (rest : List Msg)
       (s : LoopState),
      crawlLoop w (fuel + 1) (wt + 1) (msg :: rest) s =
        crawlLoop w fuel (wt + (crawlStep w msg s).1.length)
          (rest ++ (crawlStep w msg s).1) (crawlStep w msg s).2) ∧
    (∀ (w : WebCrawler) (u0 : String) (U : List String),
      (∀ url links assets, w.Parser url = Except.ok (links, assets) →
        ∀ l ∈ links, getAbsoluteUrl w.RootUrl l ∈ U) →
      getAbsoluteUrl w.RootUrl u0 ∈ U →
      (CrawlCore w (2 * U.length) u0).isSome = true) := by
  refine ⟨crawlLoop_zero, crawlLoop_succ, ?_⟩
  intro w u0 U hU hmem
  simp only [CrawlCore]
  cases hfp : fetchPage w none (getAbsoluteUrl w.RootUrl u0) with
  | error e =>
    rfl
  | ok page =>
    have hInv0 := init_inv hfp
    have hlen : 0 < U.length := List.length_pos_of_mem hmem
    have ht := crawlLoop_total U hU (2 * U.length) 1
      [{ res := Except.ok page, url := getAbsoluteUrl w.RootUrl u0 }]
      { requested := [getAbsoluteUrl w.RootUrl u0],
        store := PageStore.empty.set (getAbsoluteUrl w.RootUrl u0) page,
        errors := [], fetched := [getAbsoluteUrl w.RootUrl u0],
        parseCalls :=
          if (fetchPageI w none (getAbsoluteUrl w.RootUrl u0)).2 then
            [getAbsoluteUrl w.RootUrl u0] else [] }
      hInv0 ?_ ?_
    · obtain ⟨s', hs'⟩ := Option.isSome_iff_exists.1 ht
      show (match crawlLoop w (2 * U.length) 1
          [{ res := Except.ok page, url := getAbsoluteUrl w.RootUrl u0 }]
          { requested := [getAbsoluteUrl w.RootUrl u0],
            store := PageStore.empty.set (getAbsoluteUrl w.RootUrl u0) page,
            errors := [], fetched := [getAbsoluteUrl w.RootUrl u0],
            parseCalls :=
              if (fetchPageI w none (getAbsoluteUrl w.RootUrl u0)).2 then
                [getAbsoluteUrl w.RootUrl u0] else [] } with
        | none => (none : Option (Except String CrawlResult))
        | some s =>
            some (Except.ok
              { rootUrl := getAbsoluteUrl w.RootUrl u0, store := s.store,
                errors := s.errors, requested := s.requested,
                fetched := s.fetched,
                parseCalls := s.parseCalls })).isSome = true
      rw [hs']
      rfl
    · intro u hu
      have hu' : u ∈ [getAbsoluteUrl w.RootUrl u0] := hu
      rw [List.mem_singleton] at hu'
      rw [hu']
      exact hmem
    · show 2 * (U.length - 1) + 1 ≤ 2 * U.length
      omega

/-- Witness for C8: with the three chain-fixture URLs as the universe,
fuel `2 * 3` completes the crawl. -/
theorem crawl_termination_w :
    (CrawlCore chainCrawler
      (2 * List.length
        ["http://h/1.html", "http://h/2.html", "http://h/3.html"])
      "/1.html").isSome = true := by
  refine crawl_termination.2.2 chainCrawler "/1.html"
    ["http://h/1.html", "http://h/2.html", "http://h/3.html"] ?_ (by decide)
  intro url links assets hp l hl
  have hp' : chainParser url = Except.ok (links, assets) := hp
  unfold chainParser at hp'
  split_ifs at hp' with h1 h2 h3
  · injection hp' with hpair
    injection hpair with hlk ha
    rw [← hlk] at hl
    rw [List.mem_singleton] at hl
    rw [hl]
    decide
  · injection hp' with hpair
    injection hpair with hlk ha
    rw [← hlk] at hl
    rw [List.mem_singleton] at hl
    rw [hl]
    decide
  · injection hp' with hpair
    injection hpair with hlk ha
    rw [← hlk] at hl
    exact absurd hl (List.not_mem_nil l)
